import Mathlib

/-!
Verification of the heading-extraction core of the repository
(src/Challenge_1a/process_pdfs.py) against its specification.

The Python program is shallowly embedded below.  Documents are the
block/line/span trees produced by the layout normalizer (PyMuPDF page
dictionaries); font sizes are modelled as rationals, Python round as
round-half-to-even, and Python dictionaries (which preserve insertion
order, which the program observes through max over dict keys) as
insertion-ordered association lists.

Rational arithmetic is expressed through Rat.divInt and mkRat based
helpers (qadd, qmul, qdiv) because the Batteries field operations on
Rat are irreducible and would block kernel evaluation; the lemmas
qadd_eq, qmul_eq and qdiv_eq prove these helpers equal to the ordinary
field operations, so no semantics is changed.
-/

/-! ### Python primitives -/

/-- Whitespace as tested by Python str.strip, str.split and the regex
class backslash-s (ASCII range). -/
def pyIsSpace (c : Char) : Bool :=
  c = ' ' || c = '\t' || c = '\n' || c = '\r' || c = '\x0b' || c = '\x0c'

/-- Does the character list b start with the character list a. -/
def strStarts : List Char → List Char → Bool
  | [], _ => true
  | _ :: _, [] => false
  | x :: xs, y :: ys => x = y && strStarts xs ys

/-- Does the character list a occur contiguously inside the second list
(Python substring membership, the in operator on str). -/
def strOccurs (a : List Char) : List Char → Bool
  | [] => strStarts a []
  | c :: t => strStarts a (c :: t) || strOccurs a t

/-- Python: needle in hay (substring test). -/
def pyIn (needle hay : String) : Bool := strOccurs needle.data hay.data

/-- Python: s.startswith(p). -/
def pyStartsWith (s p : String) : Bool := strStarts p.data s.data

/-- Python: s.strip() with no argument (trim whitespace on both sides). -/
def pyStrip (s : String) : String :=
  String.mk (((s.data.dropWhile pyIsSpace).reverse.dropWhile pyIsSpace).reverse)

/-- Python: s.lower() (ASCII model). -/
def pyLower (s : String) : String := String.mk (s.data.map Char.toLower)

/-- Python: s.islower() — at least one cased character and no uppercase
character (ASCII model). -/
def pyIslower (s : String) : Bool :=
  s.data.any (fun c => c.isLower || c.isUpper) && s.data.all (fun c => !c.isUpper)

/-- The last character of a string, if any (used for endswith tests
against single-character suffixes). -/
def pyLastChar (s : String) : Option Char := s.data.getLast?

/-- Helper for pySplit: cur is the reversed current word. -/
def pySplitAux : List Char → List Char → List (List Char)
  | [], cur => if cur.isEmpty then [] else [cur.reverse]
  | c :: t, cur =>
    if pyIsSpace c then
      if cur.isEmpty then pySplitAux t [] else cur.reverse :: pySplitAux t []
    else pySplitAux t (c :: cur)

/-- Python: s.split() with no argument — split on whitespace runs,
dropping empty fragments. -/
def pySplit (s : String) : List String := (pySplitAux s.data []).map String.mk

/-- Python: sep.join(parts). -/
def pyJoin (sep : String) (parts : List String) : String :=
  String.intercalate sep parts

/-- Python: os.path.basename(path) on POSIX — the part after the last
slash. -/
def pyBasename (path : String) : String :=
  String.mk ((path.data.reverse.takeWhile (fun c => c ≠ '/')).reverse)

/-- Python round on a rational value: round half to even, computed with
integer arithmetic (r2 is twice the fractional part times the
denominator, compared against the denominator). -/
def pyRound (q : ℚ) : ℤ :=
  let d : ℤ := (q.den : ℤ)
  let f : ℤ := Int.ediv q.num d
  let r2 : ℤ := 2 * (q.num - f * d)
  if r2 < d then f
  else if d < r2 then f + 1
  else if f % 2 = 0 then f else f + 1

/-! ### Kernel-reducible rational arithmetic -/

/-- Addition on rationals through Rat.divInt (equal to + by qadd_eq). -/
def qadd (a b : ℚ) : ℚ := Rat.divInt (a.num * b.den + b.num * a.den) (a.den * b.den)

/-- Multiplication on rationals through Rat.divInt (equal to * by qmul_eq). -/
def qmul (a b : ℚ) : ℚ := Rat.divInt (a.num * b.num) (a.den * b.den)

/-- Division on rationals through Rat.divInt (equal to / by qdiv_eq). -/
def qdiv (a b : ℚ) : ℚ := Rat.divInt (a.num * b.den) (a.den * b.num)

/-- Sum of a list of rationals. -/
def qsum (l : List ℚ) : ℚ := l.foldl qadd 0

/-- statistics.mean of a list of rationals (meaningful for nonempty
lists; the program only applies it to nonempty span lists). -/
def qmean (l : List ℚ) : ℚ := qdiv (qsum l) ((l.length : ℚ))

/-! ### Data model (the PyMuPDF page dictionary shape) -/

/-- An atomic styled run of text: the span dictionaries with keys text,
size and font. -/
structure Span where
  size : ℚ
  text : String
  font : String
  deriving DecidableEq

/-- A line: an ordered list of spans. -/
structure Line where
  spans : List Span
  deriving DecidableEq

/-- A block: a type tag (0 for text blocks) and its lines.  Image
blocks carry no lines key in the source dictionaries, which the
program reads with a get defaulting to the empty list, so they are
modelled with an empty lines list. -/
structure Block where
  type : ℕ
  lines : List Line
  deriving DecidableEq

/-- A page: its blocks in reading order. -/
structure Page where
  blocks : List Block
  deriving DecidableEq

/-- A document: its pages in order (the result of a successful
fitz.open). -/
structure Doc where
  pages : List Page
  deriving DecidableEq

/-- A heading level. -/
inductive HLevel where
  | H1
  | H2
  | H3
  deriving DecidableEq

/-- One outline entry, as emitted into the outline list. -/
structure HeadingCandidate where
  level : HLevel
  text : String
  page : ℕ
  deriving DecidableEq

/-- The result structure: title plus outline. -/
structure PdfOutput where
  title : String
  outline : List HeadingCandidate
  deriving DecidableEq

/-- All spans of a document in traversal order (pages, then blocks,
then lines, then spans), exactly the order of the loops in
analyze_font_styles. -/
def allSpans (doc : Doc) : List Span :=
  doc.pages.flatMap fun pg =>
    pg.blocks.flatMap fun blk =>
      blk.lines.flatMap fun ln => ln.spans

/-! ### Font baseline estimator (analyze_font_styles, lines 8 to 28) -/

/-- Increment the counter stored under key s in an insertion-ordered
association list, appending the key at the end when absent — the
behaviour of a Python defaultdict(int) update. -/
def bumpHist : List (ℤ × ℕ) → ℤ → ℕ → List (ℤ × ℕ)
  | [], s, n => [(s, n)]
  | (k, v) :: t, s, n =>
    if k = s then (k, v + n) :: t else (k, v) :: bumpHist t s n

/-- One span of the histogram-building loop: spans whose raw size
exceeds 7 contribute the length of their text under their rounded
size. -/
def addSpan (h : List (ℤ × ℕ)) (sp : Span) : List (ℤ × ℕ) :=
  if (7 : ℚ) < sp.size then bumpHist h (pyRound sp.size) sp.text.length else h

/-- The font-size histogram of a span list, an insertion-ordered
association list. -/
def buildHist (spans : List Span) : List (ℤ × ℕ) := spans.foldl addSpan []

/-- Python max(d, key=d.get) over the keys in insertion order: the
current best is replaced only when a strictly larger value appears. -/
def firstArgmaxGo (k : ℤ) (v : ℕ) : List (ℤ × ℕ) → ℤ
  | [] => k
  | (k2, v2) :: t =>
    if v < v2 then firstArgmaxGo k2 v2 t else firstArgmaxGo k v t

/-- The baseline of a span list: dominant histogram size, or the
default 12 when the histogram is empty. -/
def analyzeSpans (spans : List Span) : ℤ :=
  match buildHist spans with
  | [] => 12
  | (k, v) :: t => firstArgmaxGo k v t

/-- analyze_font_styles: the most common font size of the document,
weighted by character count. -/
def analyze_font_styles (doc : Doc) : ℤ := analyzeSpans (allSpans doc)

/-- The lookup function of a histogram (0 when the key is absent). -/
def histLookup : List (ℤ × ℕ) → ℤ → ℕ
  | [], _ => 0
  | (k, v) :: t, s => if k = s then v else histLookup t s

/-- The keys of a histogram, in insertion order. -/
def histKeys (h : List (ℤ × ℕ)) : List ℤ := h.map Prod.fst

/-- The rounded sizes of the qualifying spans (raw size above 7) of a
span list, with multiplicity, in order. -/
def qualSizes (spans : List Span) : List ℤ :=
  (spans.filter (fun sp => decide ((7 : ℚ) < sp.size))).map (fun sp => pyRound sp.size)

/-- The total character weight a span list accumulates under a given
rounded size. -/
def histWeight (spans : List Span) (s : ℤ) : ℕ :=
  ((spans.filter (fun sp =>
      decide ((7 : ℚ) < sp.size) && decide (pyRound sp.size = s))).map
    (fun sp => sp.text.length)).sum

/-- A span list has a unique heaviest qualifying size s: s occurs, and
every other occurring size has strictly smaller weight. -/
def uniqueMaxOn (spans : List Span) (s : ℤ) : Prop :=
  s ∈ qualSizes spans ∧
    ∀ t ∈ qualSizes spans, t ≠ s → histWeight spans t < histWeight spans s

/-! ### Boldness and the list-marker pattern -/

/-- is_bold: the lowered font name contains bold, black or heavy. -/
def is_bold (sp : Span) : Bool :=
  let font_name := pyLower sp.font
  pyIn "bold" font_name || pyIn "black" font_name || pyIn "heavy" font_name

/-- A Roman-numeral character as accepted by the enumerator pattern. -/
def isRomanChar (c : Char) : Bool :=
  c = 'I' || c = 'V' || c = 'X' || c = 'L' || c = 'C' || c = 'D' || c = 'M'

/-- After a complete enumerator: an optional period followed by at
least one whitespace character. -/
def tailOk : List Char → Bool
  | '.' :: c :: _ => pyIsSpace c
  | '.' :: [] => false
  | c :: _ => pyIsSpace c
  | [] => false

/-- Scanner for the digit alternative of the enumerator pattern: one
or more digits, then dot-separated digit groups, then an optional
period, then whitespace.  The flag afterDot records that a period was
just consumed and is still unexplained. -/
def numScan : Bool → List Char → Bool
  | _, [] => false
  | afterDot, c :: t =>
    if c.isDigit then numScan false t
    else if afterDot then pyIsSpace c
    else if c = '.' then numScan true t
    else pyIsSpace c

/-- Digit alternative of the enumerator pattern. -/
def markDigits (rest : List Char) : Bool :=
  match rest with
  | [] => false
  | c :: _ => c.isDigit && numScan false rest

/-- Single-letter alternative of the enumerator pattern. -/
def markLetter (rest : List Char) : Bool :=
  match rest with
  | [] => false
  | c :: t => (c.isUpper || c.isLower) && tailOk t

/-- Scanner for the Roman-numeral alternative after its first
character. -/
def romanScan : List Char → Bool
  | [] => false
  | c :: t => if isRomanChar c then romanScan t else tailOk (c :: t)

/-- Roman-numeral alternative of the enumerator pattern. -/
def markRoman (rest : List Char) : Bool :=
  match rest with
  | [] => false
  | c :: t => isRomanChar c && romanScan t

/-- The leading list-marker test of classify_heading: the regex
caret, backslash-s star, then digits with optional dot-separated
sub-levels or a single Latin letter or a Roman numeral, an optional
period, and at least one whitespace character. -/
def isListMarker (text : String) : Bool :=
  let rest := text.data.dropWhile pyIsSpace
  markDigits rest || markLetter rest || markRoman rest

/-! ### Heading classifier (classify_heading, lines 35 to 82) -/

/-- size_ratio: the rounded representative size over the baseline, as
a rational. -/
def size_ratio (sp : Span) (body_font_size : ℤ) : ℚ :=
  Rat.divInt (pyRound sp.size) body_font_size

/-- The punctuation set of the sentence-continuation filter. -/
def endsPunct (text : String) : Bool :=
  match pyLastChar text with
  | none => false
  | some c => c = ',' || c = ';' || c = '—' || c = '.' || c = '–' || c = ':'

/-- The final level cascade of classify_heading (source lines 64 to
82), after the text filters have passed: requires a larger-than-body
or bold font, then assigns H1, H2 or H3. -/
def headingLevelLogic (size : ℤ) (bold marker : Bool) (body_font_size : ℤ) :
    Option HLevel :=
  let is_heading_font := body_font_size < size
  if ¬(is_heading_font ∨ bold = true) then none
  else
    let r : ℚ := Rat.divInt size body_font_size
    if mkRat 9 5 < r ∧ bold = true then some HLevel.H1
    else if mkRat 27 20 < r ∨ (bold = true ∧ mkRat 23 20 < r) then some HLevel.H2
    else if is_heading_font ∨ bold = true ∨ marker = true then some HLevel.H3
    else none

/-- classify_heading: the layered rejection filters over the stripped
text (source lines 43 to 61) followed by the level cascade.  The
first-character test is reached only when the length filter has
passed, so String.front is applied to a provably nonempty string. -/
def classify_heading (t : String) (sp : Span) (body_font_size : ℤ) :
    Option HLevel :=
  let text := pyStrip t
  let words := pySplit text
  if text.length < 3 then none
  else if endsPunct text = true ∨ (pyIslower text = true ∧ 4 < words.length) then
    none
  else if pyStartsWith text "[[" = true ∨ pyStartsWith text "(" = true ∨
      pyStartsWith text "http" = true ∨ pyLastChar text = some ')' ∨
      pyIn ".git" text = true then none
  else if ¬(text.front.isUpper = true ∨ text.front.isDigit = true) then none
  else if 8 < words.length then none
  else if (words.length = 2 ∨ words.length = 3) ∧
      pyIslower (pyJoin " " (words.drop 1)) = true then none
  else headingLevelLogic (pyRound sp.size) (is_bold sp) (isListMarker text)
    body_font_size

/-! ### Title detection (extract_structure_from_pdf, lines 101 to 130) -/

/-- The space-joined, stripped text of a line (source lines 124 and
141). -/
def lineText (ln : Line) : String :=
  pyStrip (pyJoin " " (ln.spans.map (fun sp => sp.text)))

/-- The title-block scan over the first page: track the text block of
largest mean span size among those whose mean exceeds one and a half
times the baseline; strictly-greater comparison, so the first winner
is kept on ties.  The mean is taken over the spans with nonempty
stripped text; blocks with no such span are skipped. -/
def titleScan (body_font_size : ℤ) (blocks : List Block) : ℚ × Option Block :=
  blocks.foldl
    (fun st blk =>
      if blk.type = 0 then
        let spans := (blk.lines.flatMap (fun ln => ln.spans)).filter
          (fun sp => pyStrip sp.text ≠ "")
        if spans.isEmpty then st
        else
          let avg := qmean (spans.map (fun sp => sp.size))
          if qmul ((body_font_size : ℤ) : ℚ) (mkRat 3 2) < avg ∧ st.1 < avg then
            (avg, some blk)
          else st
      else st)
    ((0 : ℚ), (none : Option Block))

/-- The winning title block of a document, if any (none for a document
with no pages, where the code returns before title detection). -/
def docTitleBlock (doc : Doc) : Option Block :=
  match doc.pages with
  | [] => none
  | p0 :: _ => (titleScan (analyze_font_styles doc) p0.blocks).2

/-- The raw title: the nonempty line texts of the winning block joined
with single spaces, or the empty string when no block wins. -/
def docRawTitle (doc : Doc) : String :=
  match docTitleBlock doc with
  | none => ""
  | some blk => pyJoin " " ((blk.lines.map lineText).filter (fun s => s ≠ ""))

/-- The final title: the raw title unless it is empty or shorter than
5 characters, in which case the base name of the path (source lines
129 and 130). -/
def docTitle (doc : Doc) (path : String) : String :=
  let t := docRawTitle doc
  if t = "" ∨ t.length < 5 then pyBasename path else t

/-! ### Heading loop and assembly (lines 132 to 160) -/

/-- All lines of the document tagged with their 1-based page number,
in page, block, line order. -/
def docLines (doc : Doc) : List (ℕ × Line) :=
  doc.pages.enum.flatMap fun pi =>
    (pi.2.blocks.flatMap (fun blk => blk.lines)).map (fun ln => (pi.1 + 1, ln))

/-- One iteration of the heading loop: skip lines with no spans, skip
lines whose text occurs inside a nonempty title, classify against the
first span, and append unless the text is already present. -/
def outlineStep (title : String) (body_font_size : ℤ)
    (acc : List HeadingCandidate) (pl : ℕ × Line) : List HeadingCandidate :=
  match pl.2.spans with
  | [] => acc
  | first_span :: _ =>
    let line_text := lineText pl.2
    if title ≠ "" ∧ pyIn line_text title = true then acc
    else
      match classify_heading line_text first_span body_font_size with
      | none => acc
      | some level =>
        if acc.any (fun d => d.text = line_text) then acc
        else acc ++ [⟨level, line_text, pl.1⟩]

/-- The outline of a document processed with a given final title. -/
def docOutline (doc : Doc) (path : String) : List HeadingCandidate :=
  (docLines doc).foldl (outlineStep (docTitle doc path) (analyze_font_styles doc)) []

/-- Extraction of a successfully opened document: zero pages yield the
degenerate result, otherwise title detection and the heading loop. -/
def extractDoc (doc : Doc) (path : String) : PdfOutput :=
  match doc.pages with
  | [] => { title := "", outline := [] }
  | _ :: _ => { title := docTitle doc path, outline := docOutline doc path }

/-- extract_structure_from_pdf: a document that fitz.open could not
open is modelled as the none input, for which the function returns
None (source lines 88 to 92); an opened document is processed by
extractDoc. -/
def extract_structure_from_pdf (opened : Option Doc) (path : String) :
    Option PdfOutput :=
  match opened with
  | none => none
  | some doc => some (extractDoc doc path)

/-- The rank of a heading level, 0 highest (H1 above H2 above H3). -/
def levelRank : HLevel → ℕ
  | HLevel.H1 => 0
  | HLevel.H2 => 1
  | HLevel.H3 => 2

/-! ### Concrete documents used by witnesses and counterexamples -/

/-- A one-page document whose single block holds lowercase body text:
no title block wins and no heading is emitted. -/
def docPlain : Doc :=
  ⟨[⟨[⟨0, [⟨[⟨10, "hello world text", "Helvetica"⟩]⟩]⟩]⟩]⟩

/-- A one-page document with a single bold line, producing a nonempty
outline and a basename title. -/
def docHeading : Doc :=
  ⟨[⟨[⟨0, [⟨[⟨20, "Introduction Chapter", "Times-Bold"⟩]⟩]⟩]⟩]⟩

/-- Two spans whose histogram weights tie (two characters each). -/
def spTieA : Span := ⟨10, "ab", "f1"⟩

/-- Second tying span, of a different size. -/
def spTieB : Span := ⟨12, "cd", "f1"⟩

/-- Tie document, first ordering. -/
def docTie1 : Doc := ⟨[⟨[⟨0, [⟨[spTieA, spTieB]⟩]⟩]⟩]⟩

/-- Tie document, permuted ordering. -/
def docTie2 : Doc := ⟨[⟨[⟨0, [⟨[spTieB, spTieA]⟩]⟩]⟩]⟩

/-- A span of weight 3 at size 10: the unique heaviest size. -/
def spUniqA : Span := ⟨10, "abc", "f"⟩

/-- A span of weight 1 at size 12. -/
def spUniqB : Span := ⟨12, "a", "f"⟩

/-- Unique-maximum document, first ordering. -/
def docUniq1 : Doc := ⟨[⟨[⟨0, [⟨[spUniqA, spUniqB]⟩]⟩]⟩]⟩

/-- Unique-maximum document, permuted ordering. -/
def docUniq2 : Doc := ⟨[⟨[⟨0, [⟨[spUniqB, spUniqA]⟩]⟩]⟩]⟩

/-- A span of raw size 7.3: above the raw threshold 7 but rounding to
7. -/
def spSmallRound : Span := ⟨mkRat 73 10, "abc", "f"⟩

/-- A non-bold span of rounded size 14. -/
def spRatioHigh : Span := ⟨14, "", "Arial"⟩

/-- A non-bold span of rounded size 12. -/
def spRatioLow : Span := ⟨12, "", "Arial"⟩

/-- Decidability of the unique-maximum condition, for concrete
evaluation. -/
instance (spans : List Span) (s : ℤ) : Decidable (uniqueMaxOn spans s) := by
  unfold uniqueMaxOn
  infer_instance

/-! ### Sanity lemmas: the divInt-based helpers equal the field
operations -/

/-- The numerator of a rational is the rational times its
denominator. -/
theorem rat_num_eq (a : ℚ) : (a.num : ℚ) = a * (a.den : ℚ) := by
  have h := Rat.num_div_den a
  rw [div_eq_iff (by positivity : ((a.den : ℚ)) ≠ 0)] at h
  exact h

/-- qadd is addition. -/
theorem qadd_eq (a b : ℚ) : qadd a b = a + b := by
  unfold qadd
  rw [Rat.divInt_eq_div]
  push_cast
  have hd : ((a.den : ℚ)) * ((b.den : ℚ)) ≠ 0 := by positivity
  rw [div_eq_iff hd, rat_num_eq a, rat_num_eq b]
  ring

/-- qmul is multiplication. -/
theorem qmul_eq (a b : ℚ) : qmul a b = a * b := by
  unfold qmul
  rw [Rat.divInt_eq_div]
  push_cast
  have hd : ((a.den : ℚ)) * ((b.den : ℚ)) ≠ 0 := by positivity
  rw [div_eq_iff hd, rat_num_eq a, rat_num_eq b]
  ring

/-- qdiv is division. -/
theorem qdiv_eq (a b : ℚ) : qdiv a b = a / b := by
  rcases eq_or_ne b 0 with rb | rb
  · subst rb
    norm_num [qdiv, Rat.divInt_eq_div]
  · unfold qdiv
    rw [Rat.divInt_eq_div]
    push_cast
    have hbnum : (b.num : ℚ) ≠ 0 := by exact_mod_cast Rat.num_ne_zero.mpr rb
    have hden : ((a.den : ℚ)) ≠ 0 := by positivity
    rw [div_eq_div_iff (mul_ne_zero hden hbnum) rb, rat_num_eq a, rat_num_eq b]
    ring

/-- size_ratio is the rounded size divided by the baseline. -/
theorem size_ratio_eq (sp : Span) (b : ℤ) :
    size_ratio sp b = (pyRound sp.size : ℚ) / (b : ℚ) := Rat.divInt_eq_div _ _

/-! ### Claims C1, C2, C8, C9, C10 -/

/-- C1, counterexample to the claim as stated: for the one-page
document docPlain no title block wins, yet the returned title is the
full base name doc.pdf, not the file name doc with the extension
removed. -/
theorem c1_counterexample :
    (docTitleBlock docPlain = none ∨ (docRawTitle docPlain).length < 5) ∧
      (extractDoc docPlain "dir/doc.pdf").title = "doc.pdf" ∧
      ("doc.pdf" : String) ≠ "doc" :=
  ⟨Or.inl (by decide), by decide, by decide⟩

/-- C1 (amended): for every document with at least one page where no
title block wins or the concatenated block title has fewer than 5
characters, the returned title is the base name of the path, with its
extension kept. -/
theorem title_fallback_is_basename (doc : Doc) (path : String)
    (hpages : doc.pages ≠ [])
    (h : docTitleBlock doc = none ∨ (docRawTitle doc).length < 5) :
    (extractDoc doc path).title = pyBasename path := by
  have hlt : docRawTitle doc = "" ∨ (docRawTitle doc).length < 5 := by
    rcases h with h | h
    · left
      simp [docRawTitle, h]
    · right
      exact h
  obtain ⟨pages⟩ := doc
  cases pages with
  | nil => exact absurd rfl hpages
  | cons p0 ps =>
    show docTitle ⟨p0 :: ps⟩ path = pyBasename path
    simp only [docTitle]
    rw [if_pos hlt]

/-- Witness for title_fallback_is_basename at docPlain. -/
theorem title_fallback_is_basename_witness :
    docPlain.pages ≠ [] ∧
      (extractDoc docPlain "doc.pdf").title = pyBasename "doc.pdf" :=
  ⟨by decide,
    title_fallback_is_basename docPlain "doc.pdf" (by decide) (Or.inl (by decide))⟩

/-- C2, counterexample to the claim as stated: a document that cannot
be opened does not produce the degenerate empty structure. -/
theorem c2_counterexample :
    extract_structure_from_pdf none "a.pdf" ≠
      some { title := "", outline := [] } := by
  decide

/-- C2 (amended): for every document that cannot be opened,
extract_structure_from_pdf returns None (no output structure at all),
so no fatal error reaches the batch driver, which skips the file. -/
theorem unopenable_doc_yields_none (path : String) :
    extract_structure_from_pdf none path = none := rfl

/-- C8: the line background and related work is rejected by the
classifier for every span style and every baseline, because its first
character is neither uppercase nor a digit. -/
theorem background_related_work_rejected (sp : Span) (body_font_size : ℤ) :
    classify_heading "background and related work" sp body_font_size = none := by
  simp only [classify_heading]
  rw [if_neg (by decide), if_neg (by decide), if_neg (by decide), if_pos (by decide)]

/-- C9: a zero-page document yields exactly the degenerate result and
is not an error. -/
theorem zero_page_doc_degenerate (doc : Doc) (path : String)
    (h : doc.pages = []) :
    extract_structure_from_pdf (some doc) path =
      some { title := "", outline := [] } := by
  obtain ⟨pages⟩ := doc
  cases pages with
  | nil => rfl
  | cons p ps => simp at h

/-- Witness for zero_page_doc_degenerate at the empty document. -/
theorem zero_page_doc_degenerate_witness :
    (Doc.mk []).pages = [] ∧
      extract_structure_from_pdf (some (Doc.mk [])) "a.pdf" =
        some { title := "", outline := [] } :=
  ⟨rfl, zero_page_doc_degenerate (Doc.mk []) "a.pdf" rfl⟩

/-- C10: with a positive baseline the classifier is a total function
returning not-a-heading or one of the three levels. -/
theorem classify_total_range (t : String) (sp : Span) (body_font_size : ℤ)
    (_hb : 0 < body_font_size) :
    classify_heading t sp body_font_size = none ∨
      classify_heading t sp body_font_size = some HLevel.H1 ∨
      classify_heading t sp body_font_size = some HLevel.H2 ∨
      classify_heading t sp body_font_size = some HLevel.H3 := by
  rcases h : classify_heading t sp body_font_size with _ | l
  · exact Or.inl rfl
  · cases l with
    | H1 => exact Or.inr (Or.inl rfl)
    | H2 => exact Or.inr (Or.inr (Or.inl rfl))
    | H3 => exact Or.inr (Or.inr (Or.inr rfl))

/-- Witness for classify_total_range at a concrete line. -/
theorem classify_total_range_witness :
    (0 : ℤ) < 10 ∧
      (classify_heading "Alpha Section" spRatioHigh 10 = none ∨
        classify_heading "Alpha Section" spRatioHigh 10 = some HLevel.H1 ∨
        classify_heading "Alpha Section" spRatioHigh 10 = some HLevel.H2 ∨
        classify_heading "Alpha Section" spRatioHigh 10 = some HLevel.H3) :=
  ⟨by decide, classify_total_range "Alpha Section" spRatioHigh 10 (by decide)⟩

/-! ### The heading loop: title exclusion (C5) and deduplication (C6) -/

/-- A line with no spans leaves the outline unchanged. -/
theorem outlineStep_nil (title : String) (body_font_size : ℤ)
    (acc : List HeadingCandidate) (pl : ℕ × Line) (hsp : pl.2.spans = []) :
    outlineStep title body_font_size acc pl = acc := by
  unfold outlineStep
  simp only [hsp]

/-- A line whose text occurs in a nonempty title is skipped. -/
theorem outlineStep_skip (title : String) (body_font_size : ℤ)
    (acc : List HeadingCandidate) (pl : ℕ × Line) (first : Span)
    (rest : List Span) (hsp : pl.2.spans = first :: rest)
    (hskip : title ≠ "" ∧ pyIn (lineText pl.2) title = true) :
    outlineStep title body_font_size acc pl = acc := by
  unfold outlineStep
  simp only [hsp]
  rw [if_pos hskip]

/-- A line the classifier rejects leaves the outline unchanged. -/
theorem outlineStep_none (title : String) (body_font_size : ℤ)
    (acc : List HeadingCandidate) (pl : ℕ × Line) (first : Span)
    (rest : List Span) (hsp : pl.2.spans = first :: rest)
    (hskip : ¬(title ≠ "" ∧ pyIn (lineText pl.2) title = true))
    (hcl : classify_heading (lineText pl.2) first body_font_size = none) :
    outlineStep title body_font_size acc pl = acc := by
  unfold outlineStep
  simp only [hsp, hcl]
  rw [if_neg hskip]

/-- A classified line whose text is already present is discarded. -/
theorem outlineStep_dup (title : String) (body_font_size : ℤ)
    (acc : List HeadingCandidate) (pl : ℕ × Line) (first : Span)
    (rest : List Span) (lvl : HLevel) (hsp : pl.2.spans = first :: rest)
    (hskip : ¬(title ≠ "" ∧ pyIn (lineText pl.2) title = true))
    (hcl : classify_heading (lineText pl.2) first body_font_size = some lvl)
    (hdup : (acc.any (fun d => d.text = lineText pl.2)) = true) :
    outlineStep title body_font_size acc pl = acc := by
  unfold outlineStep
  simp only [hsp, hcl]
  rw [if_neg hskip, if_pos hdup]

/-- A classified line with fresh text is appended at the end. -/
theorem outlineStep_new (title : String) (body_font_size : ℤ)
    (acc : List HeadingCandidate) (pl : ℕ × Line) (first : Span)
    (rest : List Span) (lvl : HLevel) (hsp : pl.2.spans = first :: rest)
    (hskip : ¬(title ≠ "" ∧ pyIn (lineText pl.2) title = true))
    (hcl : classify_heading (lineText pl.2) first body_font_size = some lvl)
    (hdup : ¬(acc.any (fun d => d.text = lineText pl.2)) = true) :
    outlineStep title body_font_size acc pl =
      acc ++ [⟨lvl, lineText pl.2, pl.1⟩] := by
  unfold outlineStep
  simp only [hsp, hcl]
  rw [if_neg hskip, if_neg hdup]

/-- The classifier rejects the empty string (its stripped length 0 is
below the length filter). -/
theorem classify_heading_empty (sp : Span) (body_font_size : ℤ) :
    classify_heading "" sp body_font_size = none := rfl

/-- A line the classifier accepts has nonempty text. -/
theorem classify_some_text_ne_empty (t : String) (sp : Span)
    (body_font_size : ℤ) (lvl : HLevel)
    (h : classify_heading t sp body_font_size = some lvl) : t ≠ "" := by
  intro heq
  subst heq
  rw [classify_heading_empty] at h
  exact Option.noConfusion h

/-- A nonempty string never occurs inside the empty string. -/
theorem pyIn_empty_hay (a : String) (h : a ≠ "") : pyIn a "" = false := by
  obtain ⟨d⟩ := a
  cases d with
  | nil => exact absurd rfl h
  | cons c t => rfl

/-- One step of the heading loop preserves the invariant that every
entry has nonempty text not occurring inside the title. -/
theorem outlineStep_preserves (title : String) (body_font_size : ℤ)
    (acc : List HeadingCandidate) (pl : ℕ × Line)
    (hacc : ∀ e ∈ acc, e.text ≠ "" ∧ pyIn e.text title = false) :
    ∀ e ∈ outlineStep title body_font_size acc pl,
      e.text ≠ "" ∧ pyIn e.text title = false := by
  intro e he
  rcases hsp : pl.2.spans with _ | ⟨first, rest⟩
  · rw [outlineStep_nil title body_font_size acc pl hsp] at he
    exact hacc e he
  · by_cases hskip : title ≠ "" ∧ pyIn (lineText pl.2) title = true
    · rw [outlineStep_skip title body_font_size acc pl first rest hsp hskip] at he
      exact hacc e he
    · rcases hcl : classify_heading (lineText pl.2) first body_font_size with _ | lvl
      · rw [outlineStep_none title body_font_size acc pl first rest hsp hskip hcl] at he
        exact hacc e he
      · by_cases hdup : (acc.any (fun d => d.text = lineText pl.2)) = true
        · rw [outlineStep_dup title body_font_size acc pl first rest lvl hsp hskip
            hcl hdup] at he
          exact hacc e he
        · rw [outlineStep_new title body_font_size acc pl first rest lvl hsp hskip
            hcl hdup] at he
          rcases List.mem_append.mp he with hin | hnew
          · exact hacc e hin
          · have he' : e = ⟨lvl, lineText pl.2, pl.1⟩ := by
              simpa using hnew
            subst he'
            have htne : lineText pl.2 ≠ "" :=
              classify_some_text_ne_empty _ _ _ _ hcl
            refine ⟨htne, ?_⟩
            by_cases ht : title = ""
            · subst ht
              exact pyIn_empty_hay _ htne
            · rcases Decidable.em (pyIn (lineText pl.2) title = true) with hp | hp
              · exact absurd ⟨ht, hp⟩ hskip
              · simpa using hp

/-- The heading loop preserves the title-exclusion invariant. -/
theorem outline_fold_excludes (title : String) (body_font_size : ℤ)
    (lines : List (ℕ × Line)) :
    ∀ acc, (∀ e ∈ acc, e.text ≠ "" ∧ pyIn e.text title = false) →
      ∀ e ∈ lines.foldl (outlineStep title body_font_size) acc,
        e.text ≠ "" ∧ pyIn e.text title = false := by
  induction lines with
  | nil => exact fun acc hacc e he => hacc e he
  | cons pl ls ih =>
    intro acc hacc e he
    exact ih _ (outlineStep_preserves title body_font_size acc pl hacc) e he

/-- C5: no outline entry has text occurring inside the title; in
particular no line whose text is a substring of a detected title (or
equal to it) survives into the outline. -/
theorem outline_excludes_title_substring (doc : Doc) (path : String)
    (e : HeadingCandidate) (he : e ∈ (extractDoc doc path).outline) :
    pyIn e.text (extractDoc doc path).title = false := by
  obtain ⟨pages⟩ := doc
  cases pages with
  | nil => simp [extractDoc] at he
  | cons p0 ps =>
    have h := outline_fold_excludes (docTitle ⟨p0 :: ps⟩ path)
      (analyze_font_styles ⟨p0 :: ps⟩) (docLines ⟨p0 :: ps⟩) []
      (by intro x hx; simp at hx) e he
    exact h.2

/-- Witness for outline_excludes_title_substring: docHeading produces
a one-entry outline whose text does not occur in the title. -/
theorem outline_excludes_title_substring_witness :
    (⟨HLevel.H3, "Introduction Chapter", 1⟩ : HeadingCandidate) ∈
        (extractDoc docHeading "x.pdf").outline ∧
      pyIn "Introduction Chapter" (extractDoc docHeading "x.pdf").title = false :=
  ⟨by decide,
    outline_excludes_title_substring docHeading "x.pdf"
      ⟨HLevel.H3, "Introduction Chapter", 1⟩ (by decide)⟩

/-- One step of the heading loop preserves pairwise-distinct texts. -/
theorem outlineStep_pairwise (title : String) (body_font_size : ℤ)
    (acc : List HeadingCandidate) (pl : ℕ × Line)
    (h : List.Pairwise (fun a b => a.text ≠ b.text) acc) :
    List.Pairwise (fun a b => a.text ≠ b.text)
      (outlineStep title body_font_size acc pl) := by
  rcases hsp : pl.2.spans with _ | ⟨first, rest⟩
  · rw [outlineStep_nil title body_font_size acc pl hsp]
    exact h
  · by_cases hskip : title ≠ "" ∧ pyIn (lineText pl.2) title = true
    · rw [outlineStep_skip title body_font_size acc pl first rest hsp hskip]
      exact h
    · rcases hcl : classify_heading (lineText pl.2) first body_font_size with _ | lvl
      · rw [outlineStep_none title body_font_size acc pl first rest hsp hskip hcl]
        exact h
      · by_cases hdup : (acc.any (fun d => d.text = lineText pl.2)) = true
        · rw [outlineStep_dup title body_font_size acc pl first rest lvl hsp hskip
            hcl hdup]
          exact h
        · rw [outlineStep_new title body_font_size acc pl first rest lvl hsp hskip
            hcl hdup]
          rw [List.pairwise_append]
          refine ⟨h, List.pairwise_singleton _ _, ?_⟩
          intro a ha b hb
          have hb' : b = ⟨lvl, lineText pl.2, pl.1⟩ := by
            simpa using hb
          subst hb'
          intro heq
          apply hdup
          rw [List.any_eq_true]
          exact ⟨a, ha, decide_eq_true heq⟩

/-- The heading loop preserves pairwise-distinct texts. -/
theorem outline_fold_pairwise (title : String) (body_font_size : ℤ)
    (lines : List (ℕ × Line)) :
    ∀ acc, List.Pairwise (fun a b => a.text ≠ b.text) acc →
      List.Pairwise (fun a b => a.text ≠ b.text)
        (lines.foldl (outlineStep title body_font_size) acc) := by
  induction lines with
  | nil => exact fun acc hacc => hacc
  | cons pl ls ih =>
    intro acc hacc
    exact ih _ (outlineStep_pairwise title body_font_size acc pl hacc)

/-- C6: in every produced outline no two entries share the same text
(the first occurrence wins; later candidates with the same text are
discarded). -/
theorem outline_texts_distinct (doc : Doc) (path : String) :
    List.Pairwise (fun a b => a.text ≠ b.text) (extractDoc doc path).outline := by
  obtain ⟨pages⟩ := doc
  cases pages with
  | nil => exact List.Pairwise.nil
  | cons p0 ps =>
    exact outline_fold_pairwise (docTitle ⟨p0 :: ps⟩ path)
      (analyze_font_styles ⟨p0 :: ps⟩) (docLines ⟨p0 :: ps⟩) []
      List.Pairwise.nil

/-! ### Claim C7: level monotonicity of the cascade -/

/-- A classified line is classified by the level cascade on its
rounded size, boldness and marker status. -/
theorem classify_some_logic (t : String) (sp : Span) (body_font_size : ℤ)
    (l : HLevel) (h : classify_heading t sp body_font_size = some l) :
    headingLevelLogic (pyRound sp.size) (is_bold sp) (isListMarker (pyStrip t))
      body_font_size = some l := by
  simp only [classify_heading] at h
  split_ifs at h
  exact h

/-- If the cascade returns H1 then the H1 conditions held. -/
theorem logic_inv_H1 (s body_font_size : ℤ) (bold marker : Bool)
    (h : headingLevelLogic s bold marker body_font_size = some HLevel.H1) :
    mkRat 9 5 < Rat.divInt s body_font_size ∧ bold = true := by
  simp only [headingLevelLogic] at h
  split_ifs at h <;> first
    | assumption
    | simp at h

/-- If the cascade returns H2 then the H2 conditions held. -/
theorem logic_inv_H2 (s body_font_size : ℤ) (bold marker : Bool)
    (h : headingLevelLogic s bold marker body_font_size = some HLevel.H2) :
    mkRat 27 20 < Rat.divInt s body_font_size ∨
      (bold = true ∧ mkRat 23 20 < Rat.divInt s body_font_size) := by
  simp only [headingLevelLogic] at h
  split_ifs at h <;> first
    | assumption
    | simp at h

/-- If the cascade classifies a line at all and the H1 conditions
hold, the result is H1. -/
theorem logic_fires_H1 (s body_font_size : ℤ) (bold marker : Bool) (l : HLevel)
    (h : headingLevelLogic s bold marker body_font_size = some l)
    (hc : mkRat 9 5 < Rat.divInt s body_font_size ∧ bold = true) :
    l = HLevel.H1 := by
  simp only [headingLevelLogic] at h
  split_ifs at h
  exact (Option.some.inj h).symm

/-- If the cascade classifies a line at all and the H2 conditions
hold, the result is H1 or H2. -/
theorem logic_fires_H2 (s body_font_size : ℤ) (bold marker : Bool) (l : HLevel)
    (h : headingLevelLogic s bold marker body_font_size = some l)
    (hc : mkRat 27 20 < Rat.divInt s body_font_size ∨
      (bold = true ∧ mkRat 23 20 < Rat.divInt s body_font_size)) :
    l = HLevel.H1 ∨ l = HLevel.H2 := by
  simp only [headingLevelLogic] at h
  split_ifs at h <;> first
    | exact Or.inl (Option.some.inj h).symm
    | exact Or.inr (Option.some.inj h).symm

/-- C7: of two classified lines with the same boldness and the same
list-marker status, the one with the larger (or equal) size ratio
receives a level of equal or higher rank, never a lower one. -/
theorem classify_level_monotone (t1 t2 : String) (sp1 sp2 : Span)
    (body_font_size : ℤ) (l1 l2 : HLevel)
    (hbold : is_bold sp1 = is_bold sp2)
    (hmarker : isListMarker (pyStrip t1) = isListMarker (pyStrip t2))
    (hratio : size_ratio sp2 body_font_size ≤ size_ratio sp1 body_font_size)
    (h1 : classify_heading t1 sp1 body_font_size = some l1)
    (h2 : classify_heading t2 sp2 body_font_size = some l2) :
    levelRank l1 ≤ levelRank l2 := by
  have g1 := classify_some_logic t1 sp1 body_font_size l1 h1
  have g2 := classify_some_logic t2 sp2 body_font_size l2 h2
  rw [hbold, hmarker] at g1
  simp only [size_ratio] at hratio
  cases l2 with
  | H3 => cases l1 <;> decide
  | H1 =>
    have hc2 := logic_inv_H1 _ _ _ _ g2
    have hr1 : mkRat 9 5 < Rat.divInt (pyRound sp1.size) body_font_size :=
      lt_of_lt_of_le hc2.1 hratio
    have hl1 : l1 = HLevel.H1 := logic_fires_H1 _ _ _ _ _ g1 ⟨hr1, hc2.2⟩
    rw [hl1]
  | H2 =>
    have hc2 := logic_inv_H2 _ _ _ _ g2
    have hcond1 : mkRat 27 20 < Rat.divInt (pyRound sp1.size) body_font_size ∨
        (is_bold sp2 = true ∧
          mkRat 23 20 < Rat.divInt (pyRound sp1.size) body_font_size) := by
      rcases hc2 with hlt | ⟨hbd, hlt⟩
      · exact Or.inl (lt_of_lt_of_le hlt hratio)
      · exact Or.inr ⟨hbd, lt_of_lt_of_le hlt hratio⟩
    rcases logic_fires_H2 _ _ _ _ _ g1 hcond1 with hl1 | hl1 <;> subst hl1 <;> decide

/-- Witness for classify_level_monotone: two identically styled
non-bold lines at ratios 1.4 and 1.2 receive H2 and H3. -/
theorem classify_level_monotone_witness :
    classify_heading "Alpha Section" spRatioHigh 10 = some HLevel.H2 ∧
      classify_heading "Alpha Section" spRatioLow 10 = some HLevel.H3 ∧
      levelRank HLevel.H2 ≤ levelRank HLevel.H3 :=
  ⟨by decide, by decide,
    classify_level_monotone "Alpha Section" "Alpha Section" spRatioHigh spRatioLow
      10 HLevel.H2 HLevel.H3 (by decide) (by decide) (by decide)
      (by decide) (by decide)⟩

/-! ### Claims C3 and C4: the histogram and the baseline -/

/-- Looking up a bumped histogram: the bumped key gains n, all other
keys are unchanged. -/
theorem histLookup_bumpHist (h : List (ℤ × ℕ)) (s : ℤ) (n : ℕ) (s' : ℤ) :
    histLookup (bumpHist h s n) s' =
      if s = s' then histLookup h s' + n else histLookup h s' := by
  induction h with
  | nil => by_cases hss : s = s' <;> simp [bumpHist, histLookup, hss]
  | cons kv t ih =>
    obtain ⟨k, v⟩ := kv
    by_cases hks : k = s
    · subst hks
      by_cases hss : k = s' <;> simp [bumpHist, histLookup, hss]
    · by_cases hks' : k = s'
      · subst hks'
        have : ¬s = k := fun hc => hks hc.symm
        simp [bumpHist, histLookup, hks, this]
      · simp [bumpHist, histLookup, hks, hks', ih]

/-- Keys of a cons cell. -/
theorem histKeys_cons (p : ℤ × ℕ) (l : List (ℤ × ℕ)) :
    histKeys (p :: l) = p.1 :: histKeys l := rfl

/-- Membership in the keys of a bumped histogram. -/
theorem mem_histKeys_bumpHist (h : List (ℤ × ℕ)) (s : ℤ) (n : ℕ) (s' : ℤ) :
    s' ∈ histKeys (bumpHist h s n) ↔ s' ∈ histKeys h ∨ s' = s := by
  induction h with
  | nil => simp [bumpHist, histKeys]
  | cons kv t ih =>
    obtain ⟨k, v⟩ := kv
    by_cases hks : k = s
    · subst hks
      have hb : bumpHist ((k, v) :: t) k n = (k, v + n) :: t := by
        simp [bumpHist]
      rw [hb, histKeys_cons, histKeys_cons]
      simp only [List.mem_cons]
      tauto
    · have hb : bumpHist ((k, v) :: t) s n = (k, v) :: bumpHist t s n := by
        simp [bumpHist, hks]
      rw [hb, histKeys_cons, histKeys_cons]
      simp only [List.mem_cons, ih]
      tauto

/-- Bumping preserves distinctness of the keys. -/
theorem histKeys_nodup_bumpHist (h : List (ℤ × ℕ)) (s : ℤ) (n : ℕ)
    (hnd : (histKeys h).Nodup) : (histKeys (bumpHist h s n)).Nodup := by
  induction h with
  | nil => simp [bumpHist, histKeys]
  | cons kv t ih =>
    obtain ⟨k, v⟩ := kv
    rw [histKeys_cons, List.nodup_cons] at hnd
    by_cases hks : k = s
    · subst hks
      have hb : bumpHist ((k, v) :: t) k n = (k, v + n) :: t := by
        simp [bumpHist]
      rw [hb, histKeys_cons, List.nodup_cons]
      exact hnd
    · have hb : bumpHist ((k, v) :: t) s n = (k, v) :: bumpHist t s n := by
        simp [bumpHist, hks]
      rw [hb, histKeys_cons, List.nodup_cons]
      refine ⟨?_, ih hnd.2⟩
      intro hc
      rcases (mem_histKeys_bumpHist t s n k).mp hc with hc | hc
      · exact hnd.1 hc
      · exact hks hc

/-- The weight contributed by one more span at the head. -/
theorem histWeight_cons (sp : Span) (spans : List Span) (s : ℤ) :
    histWeight (sp :: spans) s =
      (if (7 : ℚ) < sp.size ∧ pyRound sp.size = s then sp.text.length else 0) +
        histWeight spans s := by
  by_cases h1 : (7 : ℚ) < sp.size <;> by_cases h2 : pyRound sp.size = s <;>
    simp [histWeight, List.filter_cons, h1, h2]

/-- The weight of an appended span list. -/
theorem histWeight_append (a b : List Span) (s : ℤ) :
    histWeight (a ++ b) s = histWeight a s + histWeight b s := by
  unfold histWeight
  rw [List.filter_append, List.map_append, List.sum_append]

/-- The sizes qualifying from one more span at the head. -/
theorem qualSizes_cons (sp : Span) (spans : List Span) :
    qualSizes (sp :: spans) =
      if (7 : ℚ) < sp.size then pyRound sp.size :: qualSizes spans
      else qualSizes spans := by
  by_cases h1 : (7 : ℚ) < sp.size <;> simp [qualSizes, List.filter_cons, h1]

/-- Folding the histogram loop adds exactly the span weights to every
lookup. -/
theorem histLookup_foldl (spans : List Span) :
    ∀ (h : List (ℤ × ℕ)) (s : ℤ),
      histLookup (spans.foldl addSpan h) s = histLookup h s + histWeight spans s := by
  induction spans with
  | nil => intro h s; simp [histWeight]
  | cons sp spans ih =>
    intro h s
    rw [List.foldl_cons, ih, histWeight_cons]
    unfold addSpan
    by_cases h1 : (7 : ℚ) < sp.size
    · rw [if_pos h1, histLookup_bumpHist]
      by_cases h2 : pyRound sp.size = s
      · rw [if_pos h2, if_pos ⟨h1, h2⟩]
        omega
      · rw [if_neg h2, if_neg (fun hc => h2 hc.2)]
        omega
    · rw [if_neg h1, if_neg (fun hc => h1 hc.1)]
      omega

/-- Folding the histogram loop inserts exactly the qualifying sizes as
keys. -/
theorem mem_histKeys_foldl (spans : List Span) :
    ∀ (h : List (ℤ × ℕ)) (s : ℤ),
      s ∈ histKeys (spans.foldl addSpan h) ↔
        s ∈ histKeys h ∨ s ∈ qualSizes spans := by
  induction spans with
  | nil => intro h s; simp [qualSizes]
  | cons sp spans ih =>
    intro h s
    rw [List.foldl_cons, ih, qualSizes_cons]
    unfold addSpan
    by_cases h1 : (7 : ℚ) < sp.size
    · rw [if_pos h1, if_pos h1, mem_histKeys_bumpHist]
      simp only [List.mem_cons]
      tauto
    · rw [if_neg h1, if_neg h1]

/-- Folding the histogram loop preserves distinct keys. -/
theorem histKeys_nodup_foldl (spans : List Span) :
    ∀ (h : List (ℤ × ℕ)), (histKeys h).Nodup →
      (histKeys (spans.foldl addSpan h)).Nodup := by
  induction spans with
  | nil => intro h hnd; exact hnd
  | cons sp spans ih =>
    intro h hnd
    rw [List.foldl_cons]
    apply ih
    unfold addSpan
    by_cases h1 : (7 : ℚ) < sp.size
    · rw [if_pos h1]
      exact histKeys_nodup_bumpHist h _ _ hnd
    · rw [if_neg h1]
      exact hnd

/-- The first-strict-max scan returns an entry of the list (or the
seed) whose value dominates the seed and every entry. -/
theorem firstArgmaxGo_spec (t : List (ℤ × ℕ)) :
    ∀ (k : ℤ) (v : ℕ),
      ∃ vr, ((firstArgmaxGo k v t = k ∧ vr = v) ∨ (firstArgmaxGo k v t, vr) ∈ t) ∧
        v ≤ vr ∧ ∀ p ∈ t, p.2 ≤ vr := by
  induction t with
  | nil =>
    intro k v
    exact ⟨v, Or.inl ⟨rfl, rfl⟩, le_refl v, by simp⟩
  | cons kv t ih =>
    obtain ⟨k2, v2⟩ := kv
    intro k v
    by_cases hlt : v < v2
    · obtain ⟨vr, hmem, hle, hbound⟩ := ih k2 v2
      refine ⟨vr, ?_, ?_, ?_⟩
      · right
        rcases hmem with ⟨heq, hveq⟩ | hmem
        · rw [firstArgmaxGo, if_pos hlt, heq, hveq]
          exact List.mem_cons_self _ _
        · rw [firstArgmaxGo, if_pos hlt]
          exact List.mem_cons_of_mem _ hmem
      · exact le_trans (le_of_lt hlt) hle
      · intro p hp
        rcases List.mem_cons.mp hp with hp | hp
        · rw [hp]
          exact hle
        · exact hbound p hp
    · obtain ⟨vr, hmem, hle, hbound⟩ := ih k v
      refine ⟨vr, ?_, hle, ?_⟩
      · rcases hmem with ⟨heq, hveq⟩ | hmem
        · exact Or.inl ⟨by rw [firstArgmaxGo, if_neg hlt]; exact heq, hveq⟩
        · right
          rw [firstArgmaxGo, if_neg hlt]
          exact List.mem_cons_of_mem _ hmem
      · intro p hp
        rcases List.mem_cons.mp hp with hp | hp
        · rw [hp]
          simp only [not_lt] at hlt
          exact le_trans hlt hle
        · exact hbound p hp

/-- With distinct keys, lookup of a member entry returns its value. -/
theorem histLookup_of_mem_nodup (h : List (ℤ × ℕ)) (k : ℤ) (v : ℕ)
    (hmem : (k, v) ∈ h) (hnd : (histKeys h).Nodup) : histLookup h k = v := by
  induction h with
  | nil => simp at hmem
  | cons kv t ih =>
    obtain ⟨k1, v1⟩ := kv
    rw [histKeys_cons, List.nodup_cons] at hnd
    rcases List.mem_cons.mp hmem with heq | hmem'
    · cases heq
      simp [histLookup]
    · have hk1k : k1 ≠ k := by
        intro hc
        subst hc
        have hmm : k1 ∈ histKeys t := by
          simp only [histKeys, List.mem_map]
          exact ⟨(k1, v), hmem', rfl⟩
        exact hnd.1 hmm
      rw [histLookup, if_neg hk1k]
      exact ih hmem' hnd.2

/-- Every key of a histogram is an entry paired with its lookup. -/
theorem mem_of_histKeys (h : List (ℤ × ℕ)) (k : ℤ)
    (hk : k ∈ histKeys h) : (k, histLookup h k) ∈ h := by
  induction h with
  | nil => simp [histKeys] at hk
  | cons kv t ih =>
    obtain ⟨k1, v1⟩ := kv
    by_cases hkk : k1 = k
    · subst hkk
      rw [histLookup, if_pos rfl]
      exact List.mem_cons_self _ _
    · rw [histKeys_cons, List.mem_cons] at hk
      rcases hk with hk | hk
      · exact absurd hk.symm hkk
      · rw [histLookup, if_neg hkk]
        exact List.mem_cons_of_mem _ (ih hk)

/-- The lookup of the built histogram is the span weight. -/
theorem histLookup_buildHist (spans : List Span) (s : ℤ) :
    histLookup (buildHist spans) s = histWeight spans s := by
  unfold buildHist
  rw [histLookup_foldl]
  simp [histLookup]

/-- The keys of the built histogram are the qualifying sizes. -/
theorem mem_histKeys_buildHist (spans : List Span) (s : ℤ) :
    s ∈ histKeys (buildHist spans) ↔ s ∈ qualSizes spans := by
  unfold buildHist
  rw [mem_histKeys_foldl]
  simp [histKeys]

/-- The built histogram has distinct keys. -/
theorem histKeys_nodup_buildHist (spans : List Span) :
    (histKeys (buildHist spans)).Nodup := by
  unfold buildHist
  exact histKeys_nodup_foldl spans [] (by simp [histKeys])

/-- When one size uniquely dominates the weights, the estimator
returns it. -/
theorem analyzeSpans_eq_of_uniqueMax (spans : List Span) (s : ℤ)
    (hu : uniqueMaxOn spans s) : analyzeSpans spans = s := by
  obtain ⟨hmem, hmax⟩ := hu
  have hkey : s ∈ histKeys (buildHist spans) :=
    (mem_histKeys_buildHist spans s).mpr hmem
  rcases hb : buildHist spans with _ | ⟨⟨k, v⟩, t⟩
  · rw [hb] at hkey
    simp [histKeys] at hkey
  · have hnd : (histKeys (buildHist spans)).Nodup := histKeys_nodup_buildHist spans
    obtain ⟨vr, hin, hvvr, hbound⟩ := firstArgmaxGo_spec t k v
    have hrmem : (firstArgmaxGo k v t, vr) ∈ buildHist spans := by
      rw [hb]
      rcases hin with ⟨hrk, hvr⟩ | hin
      · rw [hrk, hvr]
        exact List.mem_cons_self _ _
      · exact List.mem_cons_of_mem _ hin
    have hboundall : ∀ p ∈ buildHist spans, p.2 ≤ vr := by
      intro p hp
      rw [hb] at hp
      rcases List.mem_cons.mp hp with hp | hp
      · rw [hp]
        exact hvvr
      · exact hbound p hp
    have hlr : histLookup (buildHist spans) (firstArgmaxGo k v t) = vr :=
      histLookup_of_mem_nodup _ _ _ hrmem hnd
    have hwr : histWeight spans (firstArgmaxGo k v t) = vr := by
      rw [← histLookup_buildHist, hlr]
    have hrq : firstArgmaxGo k v t ∈ qualSizes spans := by
      apply (mem_histKeys_buildHist spans _).mp
      exact List.mem_map_of_mem Prod.fst hrmem
    have hsw : histWeight spans s ≤ vr := by
      have hsm := mem_of_histKeys (buildHist spans) s hkey
      have := hboundall _ hsm
      simpa [histLookup_buildHist] using this
    have hres : analyzeSpans spans = firstArgmaxGo k v t := by
      unfold analyzeSpans
      rw [hb]
    rw [hres]
    by_contra hrs
    have hlt := hmax _ hrq hrs
    omega

/-- The weight function is invariant under permutation of the spans. -/
theorem histWeight_perm (s1 s2 : List Span) (hp : List.Perm s1 s2) (s : ℤ) :
    histWeight s1 s = histWeight s2 s := by
  unfold histWeight
  exact List.Perm.sum_eq (List.Perm.map _ (List.Perm.filter _ hp))

/-- The qualifying sizes are permuted along with the spans. -/
theorem qualSizes_perm_mem (s1 s2 : List Span) (hp : List.Perm s1 s2) (s : ℤ) :
    s ∈ qualSizes s1 ↔ s ∈ qualSizes s2 :=
  (List.Perm.map _ (List.Perm.filter _ hp)).mem_iff

/-- C3 (amended): the baseline estimator is permutation invariant for
every document whose histogram has a unique heaviest size; only a tie
between heaviest sizes can make the result order dependent. -/
theorem baseline_perm_invariant_unique_max (d1 d2 : Doc) (s : ℤ)
    (hperm : List.Perm (allSpans d1) (allSpans d2))
    (hu : uniqueMaxOn (allSpans d1) s) :
    analyze_font_styles d1 = analyze_font_styles d2 := by
  have hu2 : uniqueMaxOn (allSpans d2) s := by
    obtain ⟨hm, hx⟩ := hu
    refine ⟨(qualSizes_perm_mem _ _ hperm s).mp hm, ?_⟩
    intro u huq hus
    rw [← histWeight_perm _ _ hperm u, ← histWeight_perm _ _ hperm s]
    exact hx u ((qualSizes_perm_mem _ _ hperm u).mpr huq) hus
  unfold analyze_font_styles
  rw [analyzeSpans_eq_of_uniqueMax _ _ hu, analyzeSpans_eq_of_uniqueMax _ _ hu2]

/-- Witness for baseline_perm_invariant_unique_max: two permuted
documents with a unique heaviest size agree on the baseline. -/
theorem baseline_perm_invariant_unique_max_witness :
    List.Perm (allSpans docUniq1) (allSpans docUniq2) ∧
      uniqueMaxOn (allSpans docUniq1) 10 ∧
      analyze_font_styles docUniq1 = analyze_font_styles docUniq2 :=
  ⟨by decide, by decide,
    baseline_perm_invariant_unique_max docUniq1 docUniq2 10 (by decide) (by decide)⟩

/-- C3, counterexample to the claim as stated: permuting two spans
whose weights tie changes the estimated baseline (Python max keeps the
first key in insertion order on ties). -/
theorem c3_counterexample :
    List.Perm (allSpans docTie1) (allSpans docTie2) ∧
      analyze_font_styles docTie1 ≠ analyze_font_styles docTie2 :=
  ⟨by decide, by decide⟩

/-- C4 (amended): inserting a span changes the histogram entry of its
rounded size by its character count exactly when its raw size exceeds
7, and changes nothing at all otherwise. -/
theorem histogram_accumulates_iff_raw_size_gt7 (l1 l2 : List Span) (sp : Span)
    (s : ℤ) :
    histLookup (buildHist (l1 ++ sp :: l2)) s =
      histLookup (buildHist (l1 ++ l2)) s +
        (if (7 : ℚ) < sp.size ∧ pyRound sp.size = s then sp.text.length else 0) := by
  rw [histLookup_buildHist, histLookup_buildHist, histWeight_append,
    histWeight_append, histWeight_cons]
  omega

/-- C4, counterexample to the claim as stated: the span of raw size
7.3 rounds to 7, which does not exceed 7, yet it contributes its three
characters to the histogram under key 7. -/
theorem c4_counterexample :
    pyRound spSmallRound.size ≤ 7 ∧ buildHist [spSmallRound] = [(7, 3)] :=
  ⟨by decide, by decide⟩
